import Mathlib

/-!
# LaFortuna SDF ray marching: a shallow embedding of `src/main.c`

The numeric core of `main.c` (primitive distance functions, combinators, the
scene field and the ray marcher) and the pixel loop of `main` (colour mapping,
sampled coordinates, rectangles passed to the display) are embedded as Lean
functions.

Modelling conventions
* C `double` values are real numbers (`ℝ`): `sqrt`, `sin`, `cos`, `fmin`,
  `fmax` are `Real.sqrt`, `Real.sin`, `Real.cos`, `min`, `max`.  Rounding,
  infinities and NaN are outside the model, so every statement below is about
  the exact arithmetic the C text denotes.
* C `int` values are integers (`ℤ`) and `int` expressions are evaluated in `ℤ`
  before they are converted to `double`, as the C text converts them.  The
  width of `int` on the target is not part of these definitions: the results
  on the march loop hold for every direction vector, hence for whatever value
  the direction takes, and the pixel `(10, 120)` used next to `(0, 0)` below
  keeps the expression under the square root (`32202`) within 16 bits.  The
  range of the 16-bit `int` of the AVR target is examined separately, on the
  mathematical value `radicand` of that expression and on its 16-bit
  evaluation `radicand16`: the two agree exactly where `radicand` fits in 16
  bits, and at the other sampled pixels the direction of the program is not
  the one `dir_magnitude` gives.
* Values of type `uint16_t` are integers reduced modulo `2^16`; the variable
  `color` of `main`, which has no initial value, is an `Option`.
* The definitions over `ℝ` are not executable (`Real.sqrt`, `Real.sin`,
  `Real.cos` and the order of `ℝ` are not computable); concrete values are
  obtained by rewriting.
* The `for` loop of `raymarch` is a recursion on the number of iterations that
  remain (`MAX_MARCH - i`).
-/

namespace SDFRayMarch

noncomputable section

/-! ## Constants of `main.c` -/

/-- The constant `const int camera_x = 159;`. -/
def camera_x : ℤ := 159

/-- The constant `const int camera_y = 119;`. -/
def camera_y : ℤ := 119

/-- The constant `const int camera_z = -100;`. -/
def camera_z : ℤ := -100

/-- The constant `const int ep = 2;`. -/
def ep : ℤ := 2

/-- The constant `const int MAX_MARCH = 50;`, the iteration budget of the march loop. -/
def MAX_MARCH : ℕ := 50

/-- The constant `const double MAX_DEPTH = 180;`. -/
def MAX_DEPTH : ℝ := 180

/-! ## Primitive distance functions and combinators -/

/-- The function `unionSDF`: `return fmin(a, b);`. -/
def unionSDF (a b : ℝ) : ℝ :=
  min a b

/-- The function `differenceSDF`: `return fmax(a, -b);`. -/
def differenceSDF (a b : ℝ) : ℝ :=
  max a (-b)

/-- The function `sphereSDF`: `return sqrt(p_x*p_x + p_y*p_y + p_z*p_z) - radius;`. -/
def sphereSDF (p_x p_y p_z radius : ℝ) : ℝ :=
  Real.sqrt (p_x * p_x + p_y * p_y + p_z * p_z) - radius

/-- The function `torusSDF(x, z, y, r, t)`, parameters in the order of the C
prototype: the ring lies in the plane of the first two arguments. -/
def torusSDF (x z y r t : ℝ) : ℝ :=
  let q_x := Real.sqrt (x * x + z * z) - r
  let q_y := y
  Real.sqrt (q_x * q_x + q_y * q_y) - t

/-! ## Scene field -/

/-- The function `sdf(x, y, z, t)`: the sample scene of `main.c`. -/
def sdf (x y z : ℝ) (t : ℤ) : ℝ :=
  let p_x := x - (camera_x : ℝ)
  let p_y := y - (camera_y : ℝ)
  let p_z := z - (camera_z : ℝ) - 60
  let theta := ((10 * t : ℤ) : ℝ) * 0.017
  let bob := Real.sin ((t : ℝ) * 0.017 * 10) * 15
  let c := Real.cos theta
  let s := Real.sin theta
  unionSDF (torusSDF p_x (c * p_y - s * p_z) (s * p_y + c * p_z) 30 5)
    (unionSDF (sphereSDF p_x (p_y + bob) p_z 10)
      (torusSDF (c * p_x + s * p_z) p_y (-s * p_x + c * p_z) 45 5))

/-! ## Ray marcher -/

/-- The local `dir_magnitude` of `raymarch`: the `int` expression under the
square root is evaluated in `ℤ`, then converted.  This is the value the C text
denotes as long as no `int` operation overflows; `dir_magnitude16` below is the
evaluation with the 16-bit `int` of the target, and the two differ at sampled
pixels such as `(0, 0)`. -/
def dir_magnitude (x y : ℤ) : ℝ :=
  Real.sqrt (((x - camera_x) * (x - camera_x) + (y - camera_y) * (y - camera_y)
    + camera_z * camera_z : ℤ) : ℝ)

/-- The local `dir_x` of `raymarch`. -/
def dir_x (x y : ℤ) : ℝ :=
  ((x - camera_x : ℤ) : ℝ) / dir_magnitude x y

/-- The local `dir_y` of `raymarch`. -/
def dir_y (x y : ℤ) : ℝ :=
  ((y - camera_y : ℤ) : ℝ) / dir_magnitude x y

/-- The local `dir_z` of `raymarch`. -/
def dir_z (x y : ℤ) : ℝ :=
  ((0 - camera_z : ℤ) : ℝ) / dir_magnitude x y

/-- The `for` loop of `raymarch`, with the field it samples and the ray
direction as parameters.  The natural number is the count of iterations that
remain; the real number is the current `depth`. -/
def marchLoop (field : ℝ → ℝ → ℝ → ℝ) (dx dy dz : ℝ) : ℕ → ℝ → ℝ
  | 0, _ => MAX_DEPTH
  | n + 1, depth =>
    let distanceSDF := field ((camera_x : ℝ) + depth * dx) ((camera_y : ℝ) + depth * dy)
      ((camera_z : ℝ) + depth * dz)
    if distanceSDF < (ep : ℝ) then depth
    else
      let depth' := depth + distanceSDF
      if depth' ≥ MAX_DEPTH then MAX_DEPTH
      else marchLoop field dx dy dz n depth'

/-- The function `raymarch(x, y, t)`. -/
def raymarch (x y t : ℤ) : ℝ :=
  marchLoop (fun a b c => sdf a b c t) (dir_x x y) (dir_y x y) (dir_z x y) MAX_MARCH 0

/-! ## Reference formulations used to compare the scene with its description -/

/-- The point of the pixel ray at marched distance `d`: `camera + d * direction`. -/
def rayPoint (x y : ℤ) (d : ℝ) : ℝ × ℝ × ℝ :=
  ((camera_x : ℝ) + d * dir_x x y, (camera_y : ℝ) + d * dir_y x y,
    (camera_z : ℝ) + d * dir_z x y)

/-- The scene field sampled on the ray of pixel `(x, y)` at marched distance `d`. -/
def sdfOnRay (x y t : ℤ) (d : ℝ) : ℝ :=
  sdf (rayPoint x y d).1 (rayPoint x y d).2.1 (rayPoint x y d).2.2 t

/-- Euclidean distance between two points of space given by coordinates. -/
def dist3 (a b c a' b' c' : ℝ) : ℝ :=
  Real.sqrt ((a - a') ^ 2 + (b - b') ^ 2 + (c - c') ^ 2)

/-- The distances from the point `(a, b, c)` to the points `(u, v, 0)` of the
circle of radius `R` centred at the origin in the plane of the first two
coordinates. -/
def ringDistances (a b c R : ℝ) : Set ℝ :=
  {d | ∃ u v : ℝ, u ^ 2 + v ^ 2 = R ^ 2 ∧ d = dist3 a b c u v 0}

/-- The centre of the scene in world coordinates: the point that `sdf` maps to
the scene-local origin (`p_x = p_y = p_z = 0`). -/
def sceneCentre : ℝ × ℝ × ℝ :=
  ((camera_x : ℝ), (camera_y : ℝ), (camera_z : ℝ) + 60)

/-- The scene-local point of a world point: the translation by the scene centre. -/
def sceneLocal (x y z : ℝ) : ℝ × ℝ × ℝ :=
  (x - sceneCentre.1, y - sceneCentre.2.1, z - sceneCentre.2.2)

/-- The animation angle of tick `t`: steps of 10 degrees, a degree taken as
`0.017` radians. -/
def animAngle (t : ℤ) : ℝ :=
  (t : ℝ) * (10 * 0.017)

/-- The vertical displacement of the sphere at tick `t`. -/
def bobOffset (t : ℤ) : ℝ :=
  15 * Real.sin (animAngle t)

/-- The elemental rotation by `θ` about the x axis. -/
def rotX (θ : ℝ) (p : ℝ × ℝ × ℝ) : ℝ × ℝ × ℝ :=
  (p.1, Real.cos θ * p.2.1 - Real.sin θ * p.2.2, Real.sin θ * p.2.1 + Real.cos θ * p.2.2)

/-- The elemental rotation by `θ` about the y axis. -/
def rotY (θ : ℝ) (p : ℝ × ℝ × ℝ) : ℝ × ℝ × ℝ :=
  (Real.cos θ * p.1 + Real.sin θ * p.2.2, p.2.1, -Real.sin θ * p.1 + Real.cos θ * p.2.2)

/-- The scene as the specification describes it, with the major radii of the two
tori as parameters: the pointwise minimum of a torus (minor radius 5) rotated
about the x axis, a sphere of radius 10 displaced vertically by the bob offset,
and a torus (minor radius 5) rotated about the y axis, all at the scene-local
point. -/
def sceneUnion (R₁ R₂ : ℝ) (x y z : ℝ) (t : ℤ) : ℝ :=
  let p := sceneLocal x y z
  let q₁ := rotX (animAngle t) p
  let q₂ := rotY (animAngle t) p
  min (torusSDF q₁.1 q₁.2.1 q₁.2.2 R₁ 5)
    (min (sphereSDF p.1 (p.2.1 + bobOffset t) p.2.2 10) (torusSDF q₂.1 q₂.2.1 q₂.2.2 R₂ 5))

/-- The scene in the words of the specification: both tori have major radius 30. -/
def sdf_spec (x y z : ℝ) (t : ℤ) : ℝ :=
  sceneUnion 30 30 x y z t

/-! ## The `int` expression under the square root and the range of a 16-bit `int` -/

/-- The `int` expression
`(x - camera_x)*(x - camera_x) + (y - camera_y)*(y - camera_y) + camera_z*camera_z`
of `raymarch`, as its mathematical value. -/
def radicand (x y : ℤ) : ℤ :=
  (x - camera_x) * (x - camera_x) + (y - camera_y) * (y - camera_y) + camera_z * camera_z

/-- The largest value of the 16-bit signed `int` of the AVR target named in the
header comment of `main.c`. -/
def INT16_MAX : ℤ := 32767

/-- The value a two's complement 16-bit signed `int` holds after wrap-around. -/
def wrapInt16 (n : ℤ) : ℤ :=
  (n + 32768) % 65536 - 32768

/-- The `int` expression under the square root of `raymarch` as the 16-bit
target evaluates it: every subtraction, multiplication and addition yields a
16-bit two's complement value.  (Signed overflow is undefined in C; wrap-around
is what the 16-bit arithmetic of the target leaves.) -/
def radicand16 (x y : ℤ) : ℤ :=
  wrapInt16
    (wrapInt16
        (wrapInt16 (wrapInt16 (x - camera_x) * wrapInt16 (x - camera_x))
          + wrapInt16 (wrapInt16 (y - camera_y) * wrapInt16 (y - camera_y)))
      + wrapInt16 (camera_z * camera_z))

/-- The local `dir_magnitude` of `raymarch` with the `int` expression evaluated
in 16 bits.  Where the expression is negative the C `sqrt` has no real value
(it yields NaN); `Real.sqrt` is 0 there. -/
def dir_magnitude16 (x y : ℤ) : ℝ :=
  Real.sqrt ((radicand16 x y : ℤ) : ℝ)

/-! ## Colour mapping and frame driver of `main` -/

/-- Modelled from the spec: the macro `WHITE` of `lcd/lcd.h`, a file that is not
under `src/`; the fixed bright colour, every 5/6/5 channel at its maximum. -/
def WHITE : ℤ := 0xFFFF

/-- Modelled from the spec: the macro `BLACK` of `lcd/lcd.h`, a file that is not
under `src/`; the fixed dark colour. -/
def BLACK : ℤ := 0x0000

/-- Conversion of an integer value to `uint16_t`: reduction modulo `2^16`. -/
def toUint16 (n : ℤ) : ℤ :=
  n % 65536

/-- The cast `(uint16_t) v` of a `double` that is not negative: truncation of
the fraction, then conversion to `uint16_t`. -/
def doubleToUint16 (v : ℝ) : ℤ :=
  toUint16 ⌊v⌋

/-- The red channel `31 - (uint16_t) fabs(distance * 0.31)` of `main`. -/
def redChannel (distance : ℝ) : ℤ :=
  31 - doubleToUint16 |distance * 0.31|

/-- The green channel `63 - (uint16_t) fabs(distance * 0.63)` of `main`. -/
def greenChannel (distance : ℝ) : ℤ :=
  63 - doubleToUint16 |distance * 0.63|

/-- The blue channel `31 - (uint16_t) fabs(distance * 0.2)` of `main`. -/
def blueChannel (distance : ℝ) : ℤ :=
  31 - doubleToUint16 |distance * 0.2|

/-- The value assigned to `color` in the branch `distance < 100` of `main`:
the three channels shifted into place, added, and stored in a `uint16_t`. -/
def gradientColour (distance : ℝ) : ℤ :=
  toUint16 (redChannel distance * 2 ^ 11 + greenChannel distance * 2 ^ 5 + blueChannel distance)

/-- The body of the pixel loop of `main` after the call of `raymarch`.  The
first argument is the content of the variable `color` before the pixel (`none`
while it has never been assigned).  The result is the content of `color`
afterwards and the colour passed to `fill_rectangle`. -/
def colourStep (color : Option ℤ) (distance : ℝ) (t : ℤ) : Option ℤ × Option ℤ :=
  if distance < MAX_DEPTH then
    let color' : Option ℤ :=
      if distance < 0 then some WHITE
      else if distance < 100 then some (gradientColour distance)
      else if distance < 300 then some BLACK
      else color
    (color', color')
  else (color, some (toUint16 (0x0005 + 5 * t)))

/-- The condition under which branch `i` of the chain
`if (distance < 0) .. else if (distance < 100) .. else if (distance < 300) ..`
of `main` executes. -/
def branchRuns (distance : ℝ) : Fin 3 → Prop
  | 0 => distance < 0
  | 1 => ¬ distance < 0 ∧ distance < 100
  | 2 => ¬ distance < 0 ∧ ¬ distance < 100 ∧ distance < 300

/-- Modelled from the spec: the type `rectangle` of `lcd/lcd.h`, a file that is
not under `src/`; the bounds `(left, right, top, bottom)` are inclusive. -/
structure Rectangle where
  left : ℤ
  right : ℤ
  top : ℤ
  bottom : ℤ

/-- The display pixels a rectangle covers, its bounds being inclusive. -/
@[irreducible]
def rectPixels (r : Rectangle) : Finset (ℤ × ℤ) :=
  Finset.Icc r.left r.right ×ˢ Finset.Icc r.top r.bottom

/-- The rectangle `bg = {0,319,0,239}` of `main`. -/
def bg : Rectangle :=
  ⟨0, 319, 0, 239⟩

/-- The rectangle `pix = {x, x+2,y,y+2}` of `main`. -/
def pix (x y : ℤ) : Rectangle :=
  ⟨x, x + 2, y, y + 2⟩

/-- The values a loop `for (int v = start; v < bound; v += step)` takes; the
natural number bounds the number of iterations. -/
def forValues (bound step : ℤ) : ℕ → ℤ → List ℤ
  | 0, _ => []
  | n + 1, v => if v < bound then v :: forValues bound step n (v + step) else []

/-- The values of `x` in `for (int x = 0; x < 320; x += 10)`. -/
def sampleXs : List ℤ :=
  forValues 320 10 320 0

/-- The values of `y` in `for (int y = 0; y < 240; y += 10)`. -/
def sampleYs : List ℤ :=
  forValues 240 10 240 0

/-- The pixel coordinates one frame samples, in the order of the nested loops. -/
def frameSamples : List (ℤ × ℤ) :=
  sampleXs.product sampleYs

/-! ## The march loop, for an arbitrary field and direction -/

section MarchLoop

variable (field : ℝ → ℝ → ℝ → ℝ) (dx dy dz : ℝ)

theorem marchLoop_zero (depth : ℝ) : marchLoop field dx dy dz 0 depth = MAX_DEPTH := rfl

theorem marchLoop_succ (n : ℕ) (depth : ℝ) :
    marchLoop field dx dy dz (n + 1) depth =
      if field ((camera_x : ℝ) + depth * dx) ((camera_y : ℝ) + depth * dy)
          ((camera_z : ℝ) + depth * dz) < (ep : ℝ) then depth
      else if depth + field ((camera_x : ℝ) + depth * dx) ((camera_y : ℝ) + depth * dy)
          ((camera_z : ℝ) + depth * dz) ≥ MAX_DEPTH then MAX_DEPTH
      else marchLoop field dx dy dz n
        (depth + field ((camera_x : ℝ) + depth * dx) ((camera_y : ℝ) + depth * dy)
          ((camera_z : ℝ) + depth * dz)) := rfl

theorem ep_cast : ((ep : ℤ) : ℝ) = 2 := by
  norm_num [ep]

/-- From a depth in `[0, MAX_DEPTH]` the loop returns a value in `[0, MAX_DEPTH]`. -/
theorem marchLoop_range (n : ℕ) :
    ∀ depth : ℝ, 0 ≤ depth → depth ≤ MAX_DEPTH →
      0 ≤ marchLoop field dx dy dz n depth ∧ marchLoop field dx dy dz n depth ≤ MAX_DEPTH := by
  induction n with
  | zero =>
    intro depth _ _
    rw [marchLoop_zero]
    exact ⟨by norm_num [MAX_DEPTH], le_refl _⟩
  | succ n ih =>
    intro depth h0 h1
    rw [marchLoop_succ]
    split_ifs with hhit hfar
    · exact ⟨h0, h1⟩
    · exact ⟨by norm_num [MAX_DEPTH], le_refl _⟩
    · rw [ep_cast] at hhit
      exact ih _ (by linarith) (by linarith)

/-- A field that is at least `ep` on the whole stretch `[0, MAX_DEPTH)` of the
ray makes the loop return `MAX_DEPTH`, whatever the iteration budget. -/
theorem marchLoop_miss
    (hfield : ∀ d : ℝ, 0 ≤ d → d < MAX_DEPTH →
      (ep : ℝ) ≤ field ((camera_x : ℝ) + d * dx) ((camera_y : ℝ) + d * dy)
        ((camera_z : ℝ) + d * dz))
    (n : ℕ) :
    ∀ depth : ℝ, 0 ≤ depth → depth < MAX_DEPTH →
      marchLoop field dx dy dz n depth = MAX_DEPTH := by
  induction n with
  | zero => intro depth _ _; rfl
  | succ n ih =>
    intro depth h0 h1
    have hd := hfield depth h0 h1
    rw [marchLoop_succ]
    split_ifs with hhit hfar
    · exact absurd hhit (not_lt.mpr hd)
    · rfl
    · rw [ep_cast] at hd
      exact ih _ (by linarith) (by linarith)

/-- A result below `MAX_DEPTH` is a depth at which the field is below `ep`. -/
theorem marchLoop_hit (n : ℕ) :
    ∀ depth : ℝ, marchLoop field dx dy dz n depth < MAX_DEPTH →
      field ((camera_x : ℝ) + marchLoop field dx dy dz n depth * dx)
        ((camera_y : ℝ) + marchLoop field dx dy dz n depth * dy)
        ((camera_z : ℝ) + marchLoop field dx dy dz n depth * dz) < (ep : ℝ) := by
  induction n with
  | zero =>
    intro depth h
    rw [marchLoop_zero] at h
    exact absurd h (lt_irrefl _)
  | succ n ih =>
    intro depth h
    rw [marchLoop_succ] at h ⊢
    split_ifs at h ⊢ with hhit hfar
    · exact hhit
    · exact absurd h (lt_irrefl _)
    · exact ih _ h

end MarchLoop

/-! ## Claims about `raymarch` -/

/-- C1: for every integer pixel coordinate `(x, y)` and every tick `t`, the
value returned by `raymarch x y t` lies in the closed interval
`[0, MAX_DEPTH] = [0, 180]`. -/
theorem raymarch_mem_range (x y t : ℤ) :
    0 ≤ raymarch x y t ∧ raymarch x y t ≤ MAX_DEPTH ∧ MAX_DEPTH = 180 :=
  ⟨(marchLoop_range _ _ _ _ MAX_MARCH 0 (le_refl _) (by norm_num [MAX_DEPTH])).1,
    (marchLoop_range _ _ _ _ MAX_MARCH 0 (le_refl _) (by norm_num [MAX_DEPTH])).2, rfl⟩

/-- C2: for every pixel `(x, y)` and tick `t`, if the scene field is at least
`ep = 2` at every point `camera + d * direction` with `0 ≤ d < MAX_DEPTH` of
the pixel ray, then `raymarch x y t` returns exactly `MAX_DEPTH = 180`. -/
theorem raymarch_miss (x y t : ℤ)
    (h : ∀ d : ℝ, 0 ≤ d → d < MAX_DEPTH → (ep : ℝ) ≤ sdfOnRay x y t d) :
    raymarch x y t = MAX_DEPTH ∧ MAX_DEPTH = 180 :=
  ⟨marchLoop_miss _ _ _ _ h MAX_MARCH 0 (le_refl _) (by norm_num [MAX_DEPTH]), rfl⟩

/-- C3: for every pixel `(x, y)` and tick `t`, if `raymarch x y t` returns a
depth strictly below `MAX_DEPTH`, the scene field at the point of the pixel ray
at that depth is below `ep = 2`: the ray has hit a surface there. -/
theorem raymarch_hit (x y t : ℤ) (h : raymarch x y t < MAX_DEPTH) :
    sdfOnRay x y t (raymarch x y t) < (ep : ℝ) ∧ (ep : ℝ) = 2 :=
  ⟨marchLoop_hit _ _ _ _ MAX_MARCH 0 h, ep_cast⟩

/-! ## Euclidean norm inequalities -/

/-- Cauchy-Schwarz in the plane, in square-root form. -/
theorem inner2_le_sqrt_mul_sqrt (a b u v : ℝ) :
    a * u + b * v ≤ Real.sqrt (a ^ 2 + b ^ 2) * Real.sqrt (u ^ 2 + v ^ 2) := by
  rw [← Real.sqrt_mul (by positivity)]
  apply Real.le_sqrt_of_sq_le
  nlinarith [sq_nonneg (a * v - b * u)]

/-- Cauchy-Schwarz in space, in square-root form. -/
theorem inner3_le_sqrt_mul_sqrt (a b c u v w : ℝ) :
    a * u + b * v + c * w ≤
      Real.sqrt (a ^ 2 + b ^ 2 + c ^ 2) * Real.sqrt (u ^ 2 + v ^ 2 + w ^ 2) := by
  rw [← Real.sqrt_mul (by positivity)]
  apply Real.le_sqrt_of_sq_le
  nlinarith [sq_nonneg (a * v - b * u), sq_nonneg (a * w - c * u), sq_nonneg (b * w - c * v)]

/-- Triangle inequality for the Euclidean norm of the plane. -/
theorem sqrt_sq_add_le2 (a b u v : ℝ) :
    Real.sqrt ((a + u) ^ 2 + (b + v) ^ 2) ≤
      Real.sqrt (a ^ 2 + b ^ 2) + Real.sqrt (u ^ 2 + v ^ 2) := by
  rw [Real.sqrt_le_left (by positivity)]
  have h := inner2_le_sqrt_mul_sqrt a b u v
  have h1 : Real.sqrt (a ^ 2 + b ^ 2) ^ 2 = a ^ 2 + b ^ 2 := Real.sq_sqrt (by positivity)
  have h2 : Real.sqrt (u ^ 2 + v ^ 2) ^ 2 = u ^ 2 + v ^ 2 := Real.sq_sqrt (by positivity)
  nlinarith

/-- Triangle inequality for the Euclidean norm of space. -/
theorem sqrt_sq_add_le3 (a b c u v w : ℝ) :
    Real.sqrt ((a + u) ^ 2 + (b + v) ^ 2 + (c + w) ^ 2) ≤
      Real.sqrt (a ^ 2 + b ^ 2 + c ^ 2) + Real.sqrt (u ^ 2 + v ^ 2 + w ^ 2) := by
  rw [Real.sqrt_le_left (by positivity)]
  have h := inner3_le_sqrt_mul_sqrt a b c u v w
  have h1 : Real.sqrt (a ^ 2 + b ^ 2 + c ^ 2) ^ 2 = a ^ 2 + b ^ 2 + c ^ 2 :=
    Real.sq_sqrt (by positivity)
  have h2 : Real.sqrt (u ^ 2 + v ^ 2 + w ^ 2) ^ 2 = u ^ 2 + v ^ 2 + w ^ 2 :=
    Real.sq_sqrt (by positivity)
  nlinarith

/-! ## Primitives in squared form -/

theorem sphereSDF_eq (a b c r : ℝ) :
    sphereSDF a b c r = Real.sqrt (a ^ 2 + b ^ 2 + c ^ 2) - r := by
  simp only [sphereSDF, pow_two]

theorem torusSDF_eq (a b c R r : ℝ) :
    torusSDF a b c R r = Real.sqrt ((Real.sqrt (a ^ 2 + b ^ 2) - R) ^ 2 + c ^ 2) - r := by
  simp only [torusSDF, pow_two]

/-- Every point of the ring is at least `torusSDF + r` away from `(a, b, c)`. -/
theorem torus_le_ring_dist (a b c R u v : ℝ) (hR : 0 ≤ R) (huv : u ^ 2 + v ^ 2 = R ^ 2) :
    Real.sqrt ((Real.sqrt (a ^ 2 + b ^ 2) - R) ^ 2 + c ^ 2) ≤ dist3 a b c u v 0 := by
  unfold dist3
  apply Real.sqrt_le_sqrt
  have h := inner2_le_sqrt_mul_sqrt a b u v
  have hs : Real.sqrt (u ^ 2 + v ^ 2) = R := by rw [huv, Real.sqrt_sq hR]
  rw [hs] at h
  have h1 : Real.sqrt (a ^ 2 + b ^ 2) ^ 2 = a ^ 2 + b ^ 2 := Real.sq_sqrt (by positivity)
  nlinarith

/-- Some point of the ring is exactly `torusSDF + r` away from `(a, b, c)`. -/
theorem torus_ring_dist_attained (a b c R : ℝ) :
    Real.sqrt ((Real.sqrt (a ^ 2 + b ^ 2) - R) ^ 2 + c ^ 2) ∈ ringDistances a b c R := by
  by_cases h0 : Real.sqrt (a ^ 2 + b ^ 2) = 0
  · refine ⟨R, 0, by ring, ?_⟩
    have hab : a ^ 2 + b ^ 2 = 0 := (Real.sqrt_eq_zero (by positivity)).1 h0
    have ha : a = 0 := by nlinarith [sq_nonneg a, sq_nonneg b]
    have hb : b = 0 := by nlinarith [sq_nonneg a, sq_nonneg b]
    unfold dist3
    rw [h0, ha, hb]
    congr 1
    ring
  · have h1 : Real.sqrt (a ^ 2 + b ^ 2) ^ 2 = a ^ 2 + b ^ 2 := Real.sq_sqrt (by positivity)
    have hpos : a ^ 2 + b ^ 2 ≠ 0 := by
      intro h
      apply h0
      rw [h, Real.sqrt_zero]
    refine ⟨R * a / Real.sqrt (a ^ 2 + b ^ 2), R * b / Real.sqrt (a ^ 2 + b ^ 2), ?_, ?_⟩
    · rw [div_pow, div_pow, h1]
      field_simp
      ring
    · unfold dist3
      congr 1
      have e1 : a - R * a / Real.sqrt (a ^ 2 + b ^ 2)
          = a * (Real.sqrt (a ^ 2 + b ^ 2) - R) / Real.sqrt (a ^ 2 + b ^ 2) := by
        field_simp
        ring
      have e2 : b - R * b / Real.sqrt (a ^ 2 + b ^ 2)
          = b * (Real.sqrt (a ^ 2 + b ^ 2) - R) / Real.sqrt (a ^ 2 + b ^ 2) := by
        field_simp
        ring
      rw [e1, e2, div_pow, div_pow, h1]
      field_simp
      ring

/-! ## Claims about the primitives and combinators -/

/-- C5: for every point `p` and radius `r`, `sphereSDF p r` equals `|p| - r`;
it is negative exactly when `|p| < r`, zero exactly when `|p| = r` and positive
exactly when `|p| > r`; `sphereSDF 0 0 0 10 = -10` and `sphereSDF 15 0 0 10 = 5`. -/
theorem sphereSDF_exact :
    (∀ p_x p_y p_z r : ℝ,
      sphereSDF p_x p_y p_z r = dist3 p_x p_y p_z 0 0 0 - r ∧
      (sphereSDF p_x p_y p_z r < 0 ↔ dist3 p_x p_y p_z 0 0 0 < r) ∧
      (sphereSDF p_x p_y p_z r = 0 ↔ dist3 p_x p_y p_z 0 0 0 = r) ∧
      (0 < sphereSDF p_x p_y p_z r ↔ r < dist3 p_x p_y p_z 0 0 0)) ∧
    sphereSDF 0 0 0 10 = -10 ∧ sphereSDF 15 0 0 10 = 5 := by
  refine ⟨fun p_x p_y p_z r => ?_, ?_, ?_⟩
  · have h : sphereSDF p_x p_y p_z r = dist3 p_x p_y p_z 0 0 0 - r := by
      rw [sphereSDF_eq]
      simp only [dist3, sub_zero]
    rw [h]
    exact ⟨rfl, sub_neg, sub_eq_zero, sub_pos⟩
  · rw [sphereSDF_eq]
    norm_num
  · rw [sphereSDF_eq]
    have h : Real.sqrt ((15 : ℝ) ^ 2 + 0 ^ 2 + 0 ^ 2) = 15 := by
      rw [show ((15 : ℝ) ^ 2 + 0 ^ 2 + 0 ^ 2) = 15 ^ 2 by norm_num]
      exact Real.sqrt_sq (by norm_num)
    rw [h]
    norm_num

/-- C6: for every point `(a, b, c)` and radii `R > 0`, `r > 0`,
`torusSDF a b c R r = sqrt ((sqrt (a^2 + b^2) - R)^2 + c^2) - r`, and
`torusSDF a b c R r + r` is the least distance from `(a, b, c)` to a point of
the circle of radius `R` centred at the origin in the plane of the first two
arguments; so `torusSDF` is zero exactly when that distance is `r` and negative
exactly when it is below `r`. -/
theorem torusSDF_exact (a b c R r : ℝ) (hR : 0 < R) (_hr : 0 < r) :
    torusSDF a b c R r = Real.sqrt ((Real.sqrt (a ^ 2 + b ^ 2) - R) ^ 2 + c ^ 2) - r ∧
    IsLeast (ringDistances a b c R) (torusSDF a b c R r + r) ∧
    ∀ D : ℝ, IsLeast (ringDistances a b c R) D →
      torusSDF a b c R r = D - r ∧ (torusSDF a b c R r = 0 ↔ D = r) ∧
        (torusSDF a b c R r < 0 ↔ D < r) := by
  have hleast : IsLeast (ringDistances a b c R) (torusSDF a b c R r + r) := by
    rw [torusSDF_eq, sub_add_cancel]
    refine ⟨torus_ring_dist_attained a b c R, ?_⟩
    rintro d ⟨u, v, huv, rfl⟩
    exact torus_le_ring_dist a b c R u v hR.le huv
  refine ⟨torusSDF_eq a b c R r, hleast, fun D hD => ?_⟩
  have hDeq : torusSDF a b c R r = D - r := by
    have := hleast.unique hD
    linarith
  rw [hDeq]
  exact ⟨rfl, sub_eq_zero, sub_neg⟩

/-- Witness of C6: the point `(40, 0, 0)` and the torus of radii `30` and `5`. -/
theorem torusSDF_exact_witness :
    torusSDF 40 0 0 30 5 = Real.sqrt ((Real.sqrt ((40 : ℝ) ^ 2 + 0 ^ 2) - 30) ^ 2 + 0 ^ 2) - 5 ∧
    IsLeast (ringDistances 40 0 0 30) (torusSDF 40 0 0 30 5 + 5) :=
  ⟨(torusSDF_exact 40 0 0 30 5 (by norm_num) (by norm_num)).1,
    (torusSDF_exact 40 0 0 30 5 (by norm_num) (by norm_num)).2.1⟩

/-- C7: for all real `a` and `b`, `unionSDF a b = min a b`; `unionSDF` is
commutative and idempotent. -/
theorem unionSDF_min_comm_idem (a b : ℝ) :
    unionSDF a b = min a b ∧ unionSDF a b = unionSDF b a ∧ unionSDF a a = a :=
  ⟨rfl, min_comm a b, min_self a⟩

/-- C8: for all real `a` and `b`, `differenceSDF a b = max a (-b)`, and
`differenceSDF` is not commutative: `differenceSDF 1 2 = 1` while
`differenceSDF 2 1 = 2`. -/
theorem differenceSDF_max_not_comm :
    (∀ a b : ℝ, differenceSDF a b = max a (-b)) ∧
    differenceSDF 1 2 = 1 ∧ differenceSDF 2 1 = 2 ∧
    ∃ a b : ℝ, differenceSDF a b ≠ differenceSDF b a := by
  have h12 : differenceSDF 1 2 = 1 := by
    unfold differenceSDF
    exact max_eq_left (by norm_num)
  have h21 : differenceSDF 2 1 = 2 := by
    unfold differenceSDF
    exact max_eq_left (by norm_num)
  refine ⟨fun a b => rfl, h12, h21, 1, 2, ?_⟩
  rw [h12, h21]
  norm_num

/-! ## The scene at tick 0 and the witnesses of the march claims -/

/-- At tick 0 the rotation is the identity and the sphere is not displaced. -/
theorem sdf_tick_zero (x y z : ℝ) :
    sdf x y z 0 = min (torusSDF (x - 159) (y - 119) (z + 40) 30 5)
      (min (sphereSDF (x - 159) (y - 119) (z + 40) 10)
        (torusSDF (x - 159) (y - 119) (z + 40) 45 5)) := by
  have hz : z + 100 - 60 = z + 40 := by ring
  simp [sdf, unionSDF, camera_x, camera_y, camera_z, hz]

/-- A torus value is at least the distance to the centre minus both radii. -/
theorem torusSDF_ge (a b c R r : ℝ) (hR : 0 ≤ R) :
    Real.sqrt (a ^ 2 + b ^ 2 + c ^ 2) - R - r ≤ torusSDF a b c R r := by
  rw [torusSDF_eq]
  have h := sqrt_sq_add_le2 (Real.sqrt (a ^ 2 + b ^ 2) - R) c R 0
  have h1 : Real.sqrt (a ^ 2 + b ^ 2) ^ 2 = a ^ 2 + b ^ 2 := Real.sq_sqrt (by positivity)
  have e1 : (Real.sqrt (a ^ 2 + b ^ 2) - R + R) ^ 2 + (c + 0) ^ 2 = a ^ 2 + b ^ 2 + c ^ 2 := by
    rw [sub_add_cancel, h1, add_zero]
  have e2 : Real.sqrt (R ^ 2 + 0 ^ 2) = R := by
    rw [show R ^ 2 + 0 ^ 2 = R ^ 2 by ring]
    exact Real.sqrt_sq hR
  rw [e1, e2] at h
  linarith

/-- At tick 0 the scene field is at least the distance to the scene centre minus 50. -/
theorem sdf_tick_zero_ge (x y z : ℝ) :
    Real.sqrt ((x - 159) ^ 2 + (y - 119) ^ 2 + (z + 40) ^ 2) - 50 ≤ sdf x y z 0 := by
  rw [sdf_tick_zero]
  have h1 := torusSDF_ge (x - 159) (y - 119) (z + 40) 30 5 (by norm_num)
  have h2 := torusSDF_ge (x - 159) (y - 119) (z + 40) 45 5 (by norm_num)
  have h3 := sphereSDF_eq (x - 159) (y - 119) (z + 40) 10
  refine le_min (by linarith) (le_min (by linarith) (by linarith))

/-- The ray of pixel `(0, 0)` stays more than 52 units away from the scene
centre, so at tick 0 the scene field is at least `ep` all along it. -/
theorem sdfOnRay_origin_ge (d : ℝ) : (ep : ℝ) ≤ sdfOnRay 0 0 0 d := by
  rw [ep_cast]
  have h := sdf_tick_zero_ge (rayPoint 0 0 d).1 (rayPoint 0 0 d).2.1 (rayPoint 0 0 d).2.2
  have h52 : (52 : ℝ) ≤ Real.sqrt (((rayPoint 0 0 d).1 - 159) ^ 2
      + ((rayPoint 0 0 d).2.1 - 119) ^ 2 + ((rayPoint 0 0 d).2.2 + 40) ^ 2) := by
    apply Real.le_sqrt_of_sq_le
    simp only [rayPoint, dir_x, dir_y, dir_z, camera_x, camera_y, camera_z]
    push_cast
    generalize dir_magnitude 0 0 = m
    have e1 : (159 : ℝ) + d * (-159 / m) - 159 = -159 * (d / m) := by ring
    have e2 : (119 : ℝ) + d * (-119 / m) - 119 = -119 * (d / m) := by ring
    have e3 : (-100 : ℝ) + d * (100 / m) + 40 = 100 * (d / m) - 60 := by ring
    rw [e1, e2, e3]
    nlinarith [sq_nonneg (49442 * (d / m) - 6000)]
  unfold sdfOnRay
  linarith

/-- At tick 0 both tori stay at least `ep` away from every point of the line
through the camera and the pixel `(10, 120)`; `w` is the marched distance
divided by `dir_magnitude 10 120`. -/
theorem torusSDF_off_ray (w R : ℝ) (hR : R = 30 ∨ R = 45) :
    2 ≤ torusSDF (-149 * w) w (100 * w - 60) R 5 := by
  rw [torusSDF_eq]
  have h0 : 0 ≤ Real.sqrt ((-149 * w) ^ 2 + w ^ 2) := Real.sqrt_nonneg _
  have h2 : Real.sqrt ((-149 * w) ^ 2 + w ^ 2) ^ 2 = 22202 * w ^ 2 := by
    rw [Real.sq_sqrt (by positivity)]
    ring
  have ha : 0 ≤ |w| := abs_nonneg w
  have haa : |w| ^ 2 = w ^ 2 := sq_abs w
  have hw : w ≤ |w| := le_abs_self w
  have hle : Real.sqrt ((-149 * w) ^ 2 + w ^ 2) ≤ 149.01 * |w| := by
    rw [Real.sqrt_le_iff]
    refine ⟨by positivity, ?_⟩
    nlinarith
  have h7 : (7 : ℝ) ≤ Real.sqrt ((Real.sqrt ((-149 * w) ^ 2 + w ^ 2) - R) ^ 2
      + (100 * w - 60) ^ 2) := by
    apply Real.le_sqrt_of_sq_le
    rcases hR with rfl | rfl
    · nlinarith [sq_nonneg (|w| - 0.325)]
    · nlinarith [sq_nonneg (|w| - 0.3945)]
  linarith

/-- The ray of pixel `(10, 120)` misses the scene at tick 0. -/
theorem sdfOnRay_left_ge (d : ℝ) : (ep : ℝ) ≤ sdfOnRay 10 120 0 d := by
  rw [ep_cast]
  unfold sdfOnRay
  rw [sdf_tick_zero]
  have e1 : (rayPoint 10 120 d).1 - 159 = -149 * (d / dir_magnitude 10 120) := by
    simp only [rayPoint, dir_x, camera_x]
    push_cast
    ring
  have e2 : (rayPoint 10 120 d).2.1 - 119 = d / dir_magnitude 10 120 := by
    simp only [rayPoint, dir_y, camera_y]
    push_cast
    ring
  have e3 : (rayPoint 10 120 d).2.2 + 40 = 100 * (d / dir_magnitude 10 120) - 60 := by
    simp only [rayPoint, dir_z, camera_z]
    push_cast
    ring
  rw [e1, e2, e3]
  generalize d / dir_magnitude 10 120 = w
  have hs : 2 ≤ sphereSDF (-149 * w) w (100 * w - 60) 10 := by
    rw [sphereSDF_eq]
    have : (12 : ℝ) ≤ Real.sqrt ((-149 * w) ^ 2 + w ^ 2 + (100 * w - 60) ^ 2) := by
      apply Real.le_sqrt_of_sq_le
      nlinarith [sq_nonneg (32202 * w - 6000)]
    linarith
  exact le_min (torusSDF_off_ray w 30 (Or.inl rfl))
    (le_min hs (torusSDF_off_ray w 45 (Or.inr rfl)))

/-- Witness of C2: at tick 0 the rays of pixel `(0, 0)` and of pixel `(10, 120)`
miss the scene, and `raymarch` returns `MAX_DEPTH = 180` for both. -/
theorem raymarch_miss_witness :
    (raymarch 0 0 0 = MAX_DEPTH ∧ MAX_DEPTH = 180) ∧ raymarch 10 120 0 = MAX_DEPTH :=
  ⟨raymarch_miss 0 0 0 (fun d _ _ => sdfOnRay_origin_ge d),
    (raymarch_miss 10 120 0 (fun d _ _ => sdfOnRay_left_ge d)).1⟩

theorem dir_magnitude_centre : dir_magnitude 159 119 = 100 := by
  unfold dir_magnitude
  simp only [camera_x, camera_y, camera_z]
  rw [show (((159 - 159) * (159 - 159) + (119 - 119) * (119 - 119) + -100 * -100 : ℤ) : ℝ)
    = (100 : ℝ) ^ 2 by norm_num]
  exact Real.sqrt_sq (by norm_num)

theorem dir_centre : dir_x 159 119 = 0 ∧ dir_y 159 119 = 0 ∧ dir_z 159 119 = 1 := by
  simp only [dir_x, dir_y, dir_z, dir_magnitude_centre, camera_x, camera_y, camera_z]
  norm_num

/-- On the axis through the scene centre, at tick 0, the sphere is the nearest
primitive. -/
theorem sdf_axis_tick_zero (z : ℝ) :
    sdf 159 119 z 0 = |z + 40| - 10 := by
  rw [sdf_tick_zero]
  have hs : sphereSDF (159 - 159) (119 - 119) (z + 40) 10 = |z + 40| - 10 := by
    rw [sphereSDF_eq, sub_self, sub_self]
    rw [show (0 : ℝ) ^ 2 + 0 ^ 2 + (z + 40) ^ 2 = (z + 40) ^ 2 by ring, Real.sqrt_sq_eq_abs]
  have habs : |z + 40| ^ 2 = (z + 40) ^ 2 := sq_abs _
  have hnn : 0 ≤ |z + 40| := abs_nonneg _
  have ht : ∀ R : ℝ, 30 ≤ R → |z + 40| - 10 ≤ torusSDF (159 - 159) (119 - 119) (z + 40) R 5 := by
    intro R hR
    rw [torusSDF_eq, sub_self, sub_self]
    have : |z + 40| - 5 ≤ Real.sqrt ((Real.sqrt ((0 : ℝ) ^ 2 + 0 ^ 2) - R) ^ 2 + (z + 40) ^ 2) := by
      apply Real.le_sqrt_of_sq_le
      rw [show (0 : ℝ) ^ 2 + 0 ^ 2 = 0 by ring, Real.sqrt_zero]
      nlinarith
    linarith
  rw [hs, min_eq_left (ht 45 (by norm_num)), min_eq_right (ht 30 (by norm_num))]

/-- The centre ray at tick 0 stops at depth 50, on the sphere. -/
theorem raymarch_centre : raymarch 159 119 0 = 50 := by
  obtain ⟨hx, hy, hz⟩ := dir_centre
  unfold raymarch
  rw [hx, hy, hz, show MAX_MARCH = 48 + 1 + 1 from rfl, marchLoop_succ]
  have c1 : ((camera_x : ℤ) : ℝ) = 159 := by norm_num [camera_x]
  have c2 : ((camera_y : ℤ) : ℝ) = 119 := by norm_num [camera_y]
  have c3 : ((camera_z : ℤ) : ℝ) = -100 := by norm_num [camera_z]
  have f0 : sdf 159 119 (-100) 0 = 50 := by
    rw [sdf_axis_tick_zero]
    norm_num [abs_of_neg]
  have f50 : sdf 159 119 (-50) 0 = 0 := by
    rw [sdf_axis_tick_zero]
    norm_num [abs_of_neg]
  simp only [c1, c2, c3, ep_cast, mul_zero, mul_one, add_zero, zero_add, f0]
  rw [if_neg (by norm_num), if_neg (by norm_num [MAX_DEPTH]), marchLoop_succ]
  simp only [c1, c2, c3, ep_cast, mul_zero, mul_one, add_zero]
  rw [show (-100 : ℝ) + 50 = -50 by norm_num, f50, if_pos (by norm_num)]

/-- Witness of C3: `raymarch 159 119 0 = 50`, the centre ray hitting the sphere
of radius 10 centred 60 units ahead of the camera. -/
theorem raymarch_hit_witness :
    raymarch 159 119 0 = 50 ∧ raymarch 159 119 0 < MAX_DEPTH ∧
      sdfOnRay 159 119 0 (raymarch 159 119 0) < (ep : ℝ) :=
  ⟨raymarch_centre, by rw [raymarch_centre]; norm_num [MAX_DEPTH],
    (raymarch_hit 159 119 0 (by rw [raymarch_centre]; norm_num [MAX_DEPTH])).1⟩

/-! ## The march loop on a single sphere -/

/-- The field of a sphere of radius 10 whose centre lies 50 units along the ray
of direction `(dx, dy, dz)` from the camera. -/
theorem sphere_on_ray (dx dy dz d : ℝ) (h : dx ^ 2 + dy ^ 2 + dz ^ 2 = 1) :
    sphereSDF ((camera_x : ℝ) + d * dx - ((camera_x : ℝ) + 50 * dx))
      ((camera_y : ℝ) + d * dy - ((camera_y : ℝ) + 50 * dy))
      ((camera_z : ℝ) + d * dz - ((camera_z : ℝ) + 50 * dz)) 10 = |d - 50| - 10 := by
  rw [sphereSDF_eq]
  have e : ((camera_x : ℝ) + d * dx - ((camera_x : ℝ) + 50 * dx)) ^ 2
      + ((camera_y : ℝ) + d * dy - ((camera_y : ℝ) + 50 * dy)) ^ 2
      + ((camera_z : ℝ) + d * dz - ((camera_z : ℝ) + 50 * dz)) ^ 2 = (d - 50) ^ 2 := by
    linear_combination (d - 50) ^ 2 * h
  rw [e, Real.sqrt_sq_eq_abs]

/-- C4: when the march loop of `raymarch` (epsilon 2, step budget 50, draw
distance 180) runs on the field of a single sphere of radius 10 whose centre
lies 50 units along the (unit-direction) ray from the camera, the returned depth
`d` is 40, so `|d - 40| < 2`. -/
theorem marchLoop_sphere (dx dy dz : ℝ) (h : dx ^ 2 + dy ^ 2 + dz ^ 2 = 1) :
    marchLoop (fun a b c => sphereSDF (a - ((camera_x : ℝ) + 50 * dx))
      (b - ((camera_y : ℝ) + 50 * dy)) (c - ((camera_z : ℝ) + 50 * dz)) 10)
      dx dy dz MAX_MARCH 0 = 40 ∧
    |marchLoop (fun a b c => sphereSDF (a - ((camera_x : ℝ) + 50 * dx))
      (b - ((camera_y : ℝ) + 50 * dy)) (c - ((camera_z : ℝ) + 50 * dz)) 10)
      dx dy dz MAX_MARCH 0 - 40| < 2 ∧
    (ep : ℝ) = 2 ∧ MAX_MARCH = 50 ∧ MAX_DEPTH = 180 := by
  have key : marchLoop (fun a b c => sphereSDF (a - ((camera_x : ℝ) + 50 * dx))
      (b - ((camera_y : ℝ) + 50 * dy)) (c - ((camera_z : ℝ) + 50 * dz)) 10)
      dx dy dz MAX_MARCH 0 = 40 := by
    rw [show MAX_MARCH = 48 + 1 + 1 from rfl, marchLoop_succ]
    simp only [sphere_on_ray dx dy dz _ h, ep_cast]
    rw [show |(0 : ℝ) - 50| - 10 = 40 by norm_num [abs_of_neg],
      if_neg (by norm_num), if_neg (by norm_num [MAX_DEPTH]), marchLoop_succ]
    simp only [sphere_on_ray dx dy dz _ h, ep_cast]
    rw [show (0 : ℝ) + 40 = 40 by norm_num,
      show |(40 : ℝ) - 50| - 10 = 0 by norm_num [abs_of_neg], if_pos (by norm_num)]
  refine ⟨key, ?_, ep_cast, rfl, rfl⟩
  rw [key]
  norm_num

/-- Witness of C4: the ray along the camera axis, direction `(0, 0, 1)`. -/
theorem marchLoop_sphere_witness :
    marchLoop (fun a b c => sphereSDF (a - ((camera_x : ℝ) + 50 * 0))
      (b - ((camera_y : ℝ) + 50 * 0)) (c - ((camera_z : ℝ) + 50 * 1)) 10)
      0 0 1 MAX_MARCH 0 = 40 :=
  (marchLoop_sphere 0 0 1 (by norm_num)).1

/-! ## The composition of the scene -/

theorem animAngle_eq (t : ℤ) : ((10 * t : ℤ) : ℝ) * 0.017 = animAngle t := by
  unfold animAngle
  push_cast
  ring

/-- The scene of `main.c` is the union of a torus of radii 30 and 5 rotated
about the x axis, the bobbing sphere of radius 10, and a torus of radii 45 and 5
rotated about the y axis. -/
theorem sdf_eq_sceneUnion (x y z : ℝ) (t : ℤ) : sdf x y z t = sceneUnion 30 45 x y z t := by
  have hb : Real.sin ((t : ℝ) * 0.017 * 10) * 15 = bobOffset t := by
    unfold bobOffset animAngle
    rw [show (t : ℝ) * 0.017 * 10 = (t : ℝ) * (10 * 0.017) by ring]
    ring
  have hz : z - (camera_z : ℝ) - 60 = z - ((camera_z : ℝ) + 60) := by ring
  simp only [sdf, sceneUnion, sceneLocal, sceneCentre, rotX, rotY, unionSDF, animAngle_eq, hb, hz]

/-- C9 (amended): for every point and tick, `sdf` is the union (pointwise
minimum) of exactly three primitive distances evaluated at the scene-local
point: a torus of major radius 30 and minor radius 5 rotated by the animation
angle about the x axis, a sphere of radius 10 whose vertical coordinate is
displaced by the bob offset, and a torus of major radius 45 and minor radius 5
rotated by the animation angle about the y axis. -/
theorem sdf_is_union_of_three (x y z : ℝ) (t : ℤ) :
    sdf x y z t =
      min (torusSDF (rotX (animAngle t) (sceneLocal x y z)).1
          (rotX (animAngle t) (sceneLocal x y z)).2.1
          (rotX (animAngle t) (sceneLocal x y z)).2.2 30 5)
        (min (sphereSDF (sceneLocal x y z).1 ((sceneLocal x y z).2.1 + bobOffset t)
            (sceneLocal x y z).2.2 10)
          (torusSDF (rotY (animAngle t) (sceneLocal x y z)).1
            (rotY (animAngle t) (sceneLocal x y z)).2.1
            (rotY (animAngle t) (sceneLocal x y z)).2.2 45 5)) := by
  rw [sdf_eq_sceneUnion]
  rfl

/-- C9 as stated fails: at tick 0, at the world point `(204, 119, -40)` (45
units to the side of the scene centre, on the ring of the second torus), the
scene field is `-5` while the scene with both major radii 30 gives `10`. -/
theorem sdf_ne_sdf_spec :
    sdf 204 119 (-40) 0 = -5 ∧ sdf_spec 204 119 (-40) 0 = 10 ∧
      ¬ (∀ (x y z : ℝ) (t : ℤ), sdf x y z t = sdf_spec x y z t) := by
  have s45 : Real.sqrt ((45 : ℝ) ^ 2 + 0 ^ 2) = 45 := by
    rw [show (45 : ℝ) ^ 2 + 0 ^ 2 = 45 ^ 2 by norm_num]
    exact Real.sqrt_sq (by norm_num)
  have s45' : Real.sqrt ((45 : ℝ) ^ 2 + 0 ^ 2 + 0 ^ 2) = 45 := by
    rw [show (45 : ℝ) ^ 2 + 0 ^ 2 + 0 ^ 2 = 45 ^ 2 by norm_num]
    exact Real.sqrt_sq (by norm_num)
  have s15 : Real.sqrt (((45 : ℝ) - 30) ^ 2 + 0 ^ 2) = 15 := by
    rw [show ((45 : ℝ) - 30) ^ 2 + 0 ^ 2 = 15 ^ 2 by norm_num]
    exact Real.sqrt_sq (by norm_num)
  have t30 : torusSDF 45 0 0 30 5 = 10 := by
    rw [torusSDF_eq, s45, s15]
    norm_num
  have t45 : torusSDF 45 0 0 45 5 = -5 := by
    rw [torusSDF_eq, s45]
    norm_num
  have sph : sphereSDF 45 0 0 10 = 35 := by
    rw [sphereSDF_eq, s45']
    norm_num
  have h1 : sdf 204 119 (-40) 0 = -5 := by
    rw [sdf_tick_zero]
    norm_num [t30, t45, sph]
  have h2 : sdf_spec 204 119 (-40) 0 = 10 := by
    simp only [sdf_spec, sceneUnion, sceneLocal, sceneCentre, rotX, rotY, animAngle, bobOffset,
      camera_x, camera_y, camera_z]
    norm_num [t30, sph]
  refine ⟨h1, h2, fun hall => ?_⟩
  have := hall 204 119 (-40) 0
  rw [h1, h2] at this
  norm_num at this

/-! ## The scene field is 1-Lipschitz -/

/-- The norm of a point is at most the norm of another plus their distance. -/
theorem norm3_le_add_dist3 (a b c a' b' c' : ℝ) :
    Real.sqrt (a ^ 2 + b ^ 2 + c ^ 2) ≤
      Real.sqrt (a' ^ 2 + b' ^ 2 + c' ^ 2) + dist3 a b c a' b' c' := by
  have h := sqrt_sq_add_le3 a' b' c' (a - a') (b - b') (c - c')
  rw [show a' + (a - a') = a by ring, show b' + (b - b') = b by ring,
    show c' + (c - c') = c by ring] at h
  exact h

theorem sphereSDF_lipschitz (a b c a' b' c' r : ℝ) :
    sphereSDF a b c r ≤ sphereSDF a' b' c' r + dist3 a b c a' b' c' := by
  rw [sphereSDF_eq, sphereSDF_eq]
  have h := norm3_le_add_dist3 a b c a' b' c'
  linarith

/-- The planar radius changes by at most the planar distance. -/
theorem planar_radius_sub_sq_le (a b a' b' : ℝ) :
    (Real.sqrt (a ^ 2 + b ^ 2) - Real.sqrt (a' ^ 2 + b' ^ 2)) ^ 2 ≤
      (a - a') ^ 2 + (b - b') ^ 2 := by
  have h := inner2_le_sqrt_mul_sqrt a b a' b'
  have h1 : Real.sqrt (a ^ 2 + b ^ 2) ^ 2 = a ^ 2 + b ^ 2 := Real.sq_sqrt (by positivity)
  have h2 : Real.sqrt (a' ^ 2 + b' ^ 2) ^ 2 = a' ^ 2 + b' ^ 2 := Real.sq_sqrt (by positivity)
  nlinarith

theorem torusSDF_lipschitz (a b c a' b' c' R r : ℝ) :
    torusSDF a b c R r ≤ torusSDF a' b' c' R r + dist3 a b c a' b' c' := by
  rw [torusSDF_eq, torusSDF_eq]
  have h := sqrt_sq_add_le2 (Real.sqrt (a' ^ 2 + b' ^ 2) - R) c'
    (Real.sqrt (a ^ 2 + b ^ 2) - Real.sqrt (a' ^ 2 + b' ^ 2)) (c - c')
  rw [show Real.sqrt (a' ^ 2 + b' ^ 2) - R
      + (Real.sqrt (a ^ 2 + b ^ 2) - Real.sqrt (a' ^ 2 + b' ^ 2))
      = Real.sqrt (a ^ 2 + b ^ 2) - R by ring, show c' + (c - c') = c by ring] at h
  have h3 : Real.sqrt ((Real.sqrt (a ^ 2 + b ^ 2) - Real.sqrt (a' ^ 2 + b' ^ 2)) ^ 2
      + (c - c') ^ 2) ≤ dist3 a b c a' b' c' := by
    unfold dist3
    apply Real.sqrt_le_sqrt
    have := planar_radius_sub_sq_le a b a' b'
    linarith
  linarith

/-- A rotation about the x axis preserves distances. -/
theorem dist3_rotX (c s a b₁ c₁ a' b₂ c₂ : ℝ) (h : c ^ 2 + s ^ 2 = 1) :
    dist3 a (c * b₁ - s * c₁) (s * b₁ + c * c₁) a' (c * b₂ - s * c₂) (s * b₂ + c * c₂)
      = dist3 a b₁ c₁ a' b₂ c₂ := by
  unfold dist3
  congr 1
  linear_combination ((b₁ - b₂) ^ 2 + (c₁ - c₂) ^ 2) * h

/-- A rotation about the y axis preserves distances. -/
theorem dist3_rotY (c s a₁ b c₁ a₂ b' c₂ : ℝ) (h : c ^ 2 + s ^ 2 = 1) :
    dist3 (c * a₁ + s * c₁) b (-s * a₁ + c * c₁) (c * a₂ + s * c₂) b' (-s * a₂ + c * c₂)
      = dist3 a₁ b c₁ a₂ b' c₂ := by
  unfold dist3
  congr 1
  linear_combination ((a₁ - a₂) ^ 2 + (c₁ - c₂) ^ 2) * h

/-- The union of the three placed primitives is 1-Lipschitz in the scene-local
point, for any rotation `(c, s)` and any vertical displacement `w`. -/
theorem placed_union_lipschitz (c s w R₁ R₂ p₁ p₂ p₃ q₁ q₂ q₃ : ℝ) (h : c ^ 2 + s ^ 2 = 1) :
    min (torusSDF p₁ (c * p₂ - s * p₃) (s * p₂ + c * p₃) R₁ 5)
        (min (sphereSDF p₁ (p₂ + w) p₃ 10)
          (torusSDF (c * p₁ + s * p₃) p₂ (-s * p₁ + c * p₃) R₂ 5)) ≤
      min (torusSDF q₁ (c * q₂ - s * q₃) (s * q₂ + c * q₃) R₁ 5)
        (min (sphereSDF q₁ (q₂ + w) q₃ 10)
          (torusSDF (c * q₁ + s * q₃) q₂ (-s * q₁ + c * q₃) R₂ 5))
        + dist3 p₁ p₂ p₃ q₁ q₂ q₃ := by
  have h1 := torusSDF_lipschitz p₁ (c * p₂ - s * p₃) (s * p₂ + c * p₃)
    q₁ (c * q₂ - s * q₃) (s * q₂ + c * q₃) R₁ 5
  rw [dist3_rotX c s _ _ _ _ _ _ h] at h1
  have h2 := sphereSDF_lipschitz p₁ (p₂ + w) p₃ q₁ (q₂ + w) q₃ 10
  have e2 : dist3 p₁ (p₂ + w) p₃ q₁ (q₂ + w) q₃ = dist3 p₁ p₂ p₃ q₁ q₂ q₃ := by
    unfold dist3
    congr 1
    ring
  rw [e2] at h2
  have h3 := torusSDF_lipschitz (c * p₁ + s * p₃) p₂ (-s * p₁ + c * p₃)
    (c * q₁ + s * q₃) q₂ (-s * q₁ + c * q₃) R₂ 5
  rw [dist3_rotY c s _ _ _ _ _ _ h] at h3
  rw [← min_add_add_right, ← min_add_add_right]
  exact min_le_min h1 (min_le_min h2 h3)

/-- The scene field at one point is at most its value at another point plus
the distance between the two points. -/
theorem sdf_le_add_dist3 (x y z x' y' z' : ℝ) (t : ℤ) :
    sdf x y z t ≤ sdf x' y' z' t + dist3 x y z x' y' z' := by
  have e : dist3 (x - (camera_x : ℝ)) (y - (camera_y : ℝ)) (z - (camera_z : ℝ) - 60)
      (x' - (camera_x : ℝ)) (y' - (camera_y : ℝ)) (z' - (camera_z : ℝ) - 60)
      = dist3 x y z x' y' z' := by
    unfold dist3
    congr 1
    ring
  rw [← e]
  simp only [sdf, unionSDF]
  exact placed_union_lipschitz _ _ _ _ _ _ _ _ _ _ _ (Real.cos_sq_add_sin_sq _)

theorem dist3_symm (a b c a' b' c' : ℝ) : dist3 a b c a' b' c' = dist3 a' b' c' a b c := by
  unfold dist3
  congr 1
  ring

/-- C10: the scene field never overstates the distance to the nearest surface:
for every tick `t`, every point `p` and every point `q` with `sdf q t ≤ 0`,
`sdf p t ≤ |p - q|`; and `sdf · t` is 1-Lipschitz for the Euclidean distance. -/
theorem sdf_one_lipschitz (t : ℤ) :
    (∀ x y z x' y' z' : ℝ, sdf x' y' z' t ≤ 0 → sdf x y z t ≤ dist3 x y z x' y' z') ∧
    (∀ x y z x' y' z' : ℝ, |sdf x y z t - sdf x' y' z' t| ≤ dist3 x y z x' y' z') := by
  constructor
  · intro x y z x' y' z' hq
    have h := sdf_le_add_dist3 x y z x' y' z' t
    linarith
  · intro x y z x' y' z'
    have h1 := sdf_le_add_dist3 x y z x' y' z' t
    have h2 := sdf_le_add_dist3 x' y' z' x y z t
    rw [dist3_symm x' y' z' x y z] at h2
    rw [abs_le]
    constructor <;> linarith

/-- Witness of C10: at tick 0 the scene centre `(159, 119, -40)` is inside the
sphere, so the field at the camera position is at most the camera's distance 60
to it. -/
theorem sdf_one_lipschitz_witness :
    sdf 159 119 (-40) 0 ≤ 0 ∧ sdf 159 119 (-100) 0 ≤ dist3 159 119 (-100) 159 119 (-40) := by
  have hq : sdf 159 119 (-40) 0 ≤ 0 := by
    rw [sdf_axis_tick_zero]
    norm_num
  exact ⟨hq, (sdf_one_lipschitz 0).1 159 119 (-100) 159 119 (-40) hq⟩

/-! ## The sampled coordinates -/

theorem sampleXs_eq : sampleXs = (List.range 32).map (fun i : ℕ => (10 * i : ℤ)) := by
  decide

theorem sampleYs_eq : sampleYs = (List.range 24).map (fun j : ℕ => (10 * j : ℤ)) := by
  decide

/-! ## The scene centre -/

theorem sqrt_sq_add_zero (R : ℝ) (hR : 0 ≤ R) : Real.sqrt (R ^ 2 + 0 ^ 2) = R := by
  rw [show R ^ 2 + 0 ^ 2 = R ^ 2 by ring]
  exact Real.sqrt_sq hR

/-- The torus value at the centre of the ring plane. -/
theorem torusSDF_origin (R r : ℝ) (hR : 0 ≤ R) : torusSDF 0 0 0 R r = R - r := by
  rw [torusSDF_eq]
  have h0 : Real.sqrt ((0 : ℝ) ^ 2 + 0 ^ 2) = 0 := by
    rw [show (0 : ℝ) ^ 2 + 0 ^ 2 = 0 by ring, Real.sqrt_zero]
  rw [h0, show ((0 : ℝ) - R) ^ 2 + 0 ^ 2 = R ^ 2 by ring, Real.sqrt_sq hR]

theorem sceneCentre_eq : sceneCentre = (159, 119, -40) := by
  simp only [sceneCentre, camera_x, camera_y, camera_z]
  norm_num

/-- C11: at tick 0 the scene field at the world point `(159, 119, -40)`, whose
scene-local coordinates are `(0, 0, 0)`, is the minimum of the three primitive
values `30 - 5`, `0 - 10` and `45 - 5`, that is `-10`: the point is inside the
sphere. -/
theorem sdf_centre_tick_zero :
    sceneLocal 159 119 (-40) = (0, 0, 0) ∧
    torusSDF 0 0 0 30 5 = 30 - 5 ∧ sphereSDF 0 0 0 10 = 0 - 10 ∧ torusSDF 0 0 0 45 5 = 45 - 5 ∧
    sdf 159 119 (-40) 0 = min (30 - 5) (min (0 - 10) (45 - 5)) ∧
    sdf 159 119 (-40) 0 = -10 ∧ sdf 159 119 (-40) 0 < 0 := by
  have h1 : torusSDF 0 0 0 30 5 = 30 - 5 := torusSDF_origin 30 5 (by norm_num)
  have h2 : sphereSDF 0 0 0 10 = 0 - 10 := by
    rw [sphereSDF_eq]
    norm_num
  have h3 : torusSDF 0 0 0 45 5 = 45 - 5 := torusSDF_origin 45 5 (by norm_num)
  have hs : sdf 159 119 (-40) 0 = min (30 - 5) (min (0 - 10) (45 - 5)) := by
    rw [sdf_tick_zero]
    norm_num [h1, h2, h3]
  have hv : sdf 159 119 (-40) 0 = -10 := by
    rw [hs]
    norm_num
  refine ⟨?_, h1, h2, h3, hs, hv, ?_⟩
  · simp only [sceneLocal, sceneCentre_eq]
    norm_num
  · rw [hv]
    norm_num

/-- C12, the code at the point the claim names: the point that `sdf` maps to
the scene-local origin is `(159, 119, -40)`, 60 units ahead of the camera and 40
units in front of the display plane `z = 0`, for every tick.  The world point
`(159, 119, 60)`, 60 units behind the display plane, has the scene-local
coordinates `(0, 0, 100)` and lies 90 units outside the scene at tick 0. -/
theorem sdf_centre_not_behind_display :
    sceneCentre = (159, 119, -40) ∧
    (∀ (x y z : ℝ) (t : ℤ), sdf x y z t = sceneUnion 30 45 x y z t) ∧
    (∀ x y z : ℝ, sceneLocal x y z = (0, 0, 0) ↔ (x, y, z) = (159, 119, -40)) ∧
    sceneLocal 159 119 60 = (0, 0, 100) ∧
    sdf 159 119 60 0 = 90 := by
  refine ⟨sceneCentre_eq, sdf_eq_sceneUnion, ?_, ?_, ?_⟩
  · intro x y z
    simp only [sceneLocal, sceneCentre_eq, Prod.mk.injEq]
    constructor
    · rintro ⟨h1, h2, h3⟩
      exact ⟨by linarith, by linarith, by linarith⟩
    · rintro ⟨h1, h2, h3⟩
      exact ⟨by linarith, by linarith, by linarith⟩
  · simp only [sceneLocal, sceneCentre_eq]
    norm_num
  · rw [sdf_axis_tick_zero]
    norm_num [abs_of_pos]

/-! ## The ray direction -/

theorem radicand_ge (x y : ℤ) : 10000 ≤ radicand x y := by
  unfold radicand
  simp only [camera_x, camera_y, camera_z]
  nlinarith [mul_self_nonneg (x - 159), mul_self_nonneg (y - 119)]

theorem dir_magnitude_eq (x y : ℤ) : dir_magnitude x y = Real.sqrt ((radicand x y : ℤ) : ℝ) :=
  rfl

theorem dir_magnitude_ge (x y : ℤ) : 100 ≤ dir_magnitude x y := by
  rw [dir_magnitude_eq]
  apply Real.le_sqrt_of_sq_le
  have h : ((10000 : ℤ) : ℝ) ≤ ((radicand x y : ℤ) : ℝ) := Int.cast_le.mpr (radicand_ge x y)
  norm_num at h ⊢
  exact h

theorem dir_magnitude_sq (x y : ℤ) : dir_magnitude x y ^ 2 = ((radicand x y : ℤ) : ℝ) := by
  rw [dir_magnitude_eq]
  apply Real.sq_sqrt
  have h : ((0 : ℤ) : ℝ) ≤ ((radicand x y : ℤ) : ℝ) :=
    Int.cast_le.mpr (le_trans (by norm_num) (radicand_ge x y))
  simpa using h

/-- The direction of a pixel ray has length 1. -/
theorem dir_sq_sum (x y : ℤ) : dir_x x y ^ 2 + dir_y x y ^ 2 + dir_z x y ^ 2 = 1 := by
  have hge := dir_magnitude_ge x y
  have hsq := dir_magnitude_sq x y
  simp only [dir_x, dir_y, dir_z, div_pow]
  rw [← add_div, ← add_div, hsq, div_eq_one_iff_eq]
  · unfold radicand
    push_cast
    ring
  · rw [← hsq]
    positivity

/-- The direction of a pixel ray points towards the display plane. -/
theorem dir_z_pos (x y : ℤ) : 0 < dir_z x y := by
  have hge := dir_magnitude_ge x y
  unfold dir_z
  apply div_pos _ (by linarith)
  simp only [camera_z]
  norm_num

/-- A value within the 16-bit range is left unchanged by wrap-around. -/
theorem wrapInt16_of_fits (n : ℤ) (h1 : -32768 ≤ n) (h2 : n ≤ 32767) : wrapInt16 n = n := by
  unfold wrapInt16
  omega

/-- Where the mathematical value of the `int` expression fits in 16 bits, the
16-bit evaluation computes it. -/
theorem radicand16_of_fits (x y : ℤ) (h : radicand x y ≤ INT16_MAX) :
    radicand16 x y = radicand x y := by
  unfold radicand INT16_MAX at h
  simp only [camera_x, camera_y, camera_z] at h
  have hx2 : (x - 159) * (x - 159) ≤ 22767 := by nlinarith [mul_self_nonneg (y - 119)]
  have hy2 : (y - 119) * (y - 119) ≤ 22767 := by nlinarith [mul_self_nonneg (x - 159)]
  have hx0 : 0 ≤ (x - 159) * (x - 159) := mul_self_nonneg _
  have hy0 : 0 ≤ (y - 119) * (y - 119) := mul_self_nonneg _
  have hx1 : -151 ≤ x - 159 := by nlinarith
  have hx1' : x - 159 ≤ 151 := by nlinarith
  have hy1 : -151 ≤ y - 119 := by nlinarith
  have hy1' : y - 119 ≤ 151 := by nlinarith
  unfold radicand16 radicand
  simp only [camera_x, camera_y, camera_z]
  rw [wrapInt16_of_fits (x - 159) (by omega) (by omega),
    wrapInt16_of_fits (y - 119) (by omega) (by omega),
    wrapInt16_of_fits ((x - 159) * (x - 159)) (by omega) (by omega),
    wrapInt16_of_fits ((y - 119) * (y - 119)) (by omega) (by omega),
    wrapInt16_of_fits ((x - 159) * (x - 159) + (y - 119) * (y - 119)) (by omega) (by omega),
    wrapInt16_of_fits (-100 * -100) (by norm_num) (by norm_num),
    wrapInt16_of_fits _ (by omega) (by omega)]

/-- At the pixels whose `int` expression fits in 16 bits the program computes
the direction that `dir_magnitude` gives, and that direction is well defined,
of unit length and points towards the display plane. -/
theorem dir_unit_of_fits (x y : ℤ) (h : radicand x y ≤ INT16_MAX) :
    dir_magnitude16 x y = dir_magnitude x y ∧ 100 ≤ dir_magnitude16 x y ∧
    dir_x x y ^ 2 + dir_y x y ^ 2 + dir_z x y ^ 2 = 1 ∧ 0 < dir_z x y := by
  have e : dir_magnitude16 x y = dir_magnitude x y := by
    unfold dir_magnitude16
    rw [radicand16_of_fits x y h, dir_magnitude_eq]
  refine ⟨e, ?_, dir_sq_sum x y, dir_z_pos x y⟩
  rw [e]
  exact dir_magnitude_ge x y

/-- C13, the code at the first sampled pixel: on the 16-bit `int` of the target
the expression under the square root of `raymarch` evaluates at `(0, 0)` to
`-16094`, the wrap-around of its mathematical value 49442.  It is negative, so
no real number is its square root: `dir_magnitude` is not a number of at least
100 there and the direction is not a unit vector.  At the pixel `(159, 119)`,
where the expression fits in 16 bits, the same evaluation gives 10000 and the
magnitude 100. -/
theorem dir_undefined_on_int16 :
    ((0, 0) : ℤ × ℤ) ∈ frameSamples ∧
    radicand16 0 0 = -16094 ∧ radicand16 0 0 = wrapInt16 (radicand 0 0) ∧
    (∀ m : ℝ, m * m ≠ ((radicand16 0 0 : ℤ) : ℝ)) ∧
    ¬ (100 ≤ dir_magnitude16 0 0) ∧ dir_magnitude16 0 0 ≠ dir_magnitude 0 0 ∧
    radicand16 159 119 = 10000 ∧ dir_magnitude16 159 119 = 100 := by
  have h16 : radicand16 0 0 = -16094 := by decide
  have hz : dir_magnitude16 0 0 = 0 := by
    unfold dir_magnitude16
    rw [h16]
    exact Real.sqrt_eq_zero_of_nonpos (by norm_num)
  have hc : radicand16 159 119 = 10000 := by decide
  refine ⟨by decide, h16, by decide, ?_, ?_, ?_, hc, ?_⟩
  · intro m hm
    rw [h16] at hm
    have := mul_self_nonneg m
    rw [hm] at this
    norm_num at this
  · rw [hz]
    norm_num
  · rw [hz]
    have := dir_magnitude_ge 0 0
    intro h0
    rw [← h0] at this
    norm_num at this
  · unfold dir_magnitude16
    rw [hc, show (((10000 : ℤ) : ℝ)) = (100 : ℝ) ^ 2 by norm_num]
    exact Real.sqrt_sq (by norm_num)

/-! ## The colour mapping -/

theorem MAX_DEPTH_eq : MAX_DEPTH = 180 := rfl

/-- The cast to `uint16_t` of `fabs v` is the integer part of `v` when
`0 ≤ v < 2^16`. -/
theorem doubleToUint16_abs (v : ℝ) (h0 : 0 ≤ v) (h1 : v < 65536) :
    doubleToUint16 |v| = ⌊v⌋ := by
  unfold doubleToUint16 toUint16
  rw [abs_of_nonneg h0]
  apply Int.emod_eq_of_lt (Int.floor_nonneg.2 h0)
  rw [Int.floor_lt]
  exact_mod_cast h1

/-- The integer part of `k * d` lies in `[0, n)` when `0 ≤ d < 100` and
`k * 100 = n`. -/
theorem floor_scaled_bounds (d k : ℝ) (n : ℤ) (h0 : 0 ≤ d) (h1 : d < 100) (hk : 0 < k)
    (hn : k * 100 = (n : ℝ)) : 0 ≤ ⌊d * k⌋ ∧ ⌊d * k⌋ < n := by
  constructor
  · exact Int.floor_nonneg.2 (by positivity)
  · rw [Int.floor_lt, ← hn]
    nlinarith

/-- The three channels for a depth in `[0, 100)`. -/
theorem channels_of_near (d : ℝ) (h0 : 0 ≤ d) (h1 : d < 100) :
    (redChannel d = 31 - ⌊d * 0.31⌋ ∧ 0 ≤ ⌊d * 0.31⌋ ∧ ⌊d * 0.31⌋ < 31) ∧
    (greenChannel d = 63 - ⌊d * 0.63⌋ ∧ 0 ≤ ⌊d * 0.63⌋ ∧ ⌊d * 0.63⌋ < 63) ∧
    (blueChannel d = 31 - ⌊d * 0.2⌋ ∧ 0 ≤ ⌊d * 0.2⌋ ∧ ⌊d * 0.2⌋ < 20) := by
  have hr := floor_scaled_bounds d 0.31 31 h0 h1 (by norm_num) (by norm_num)
  have hg := floor_scaled_bounds d 0.63 63 h0 h1 (by norm_num) (by norm_num)
  have hb := floor_scaled_bounds d 0.2 20 h0 h1 (by norm_num) (by norm_num)
  refine ⟨⟨?_, hr⟩, ⟨?_, hg⟩, ⟨?_, hb⟩⟩
  · unfold redChannel
    rw [doubleToUint16_abs _ (by positivity) (by nlinarith)]
  · unfold greenChannel
    rw [doubleToUint16_abs _ (by positivity) (by nlinarith)]
  · unfold blueChannel
    rw [doubleToUint16_abs _ (by positivity) (by nlinarith)]

/-- The packed colour for a depth in `[0, 100)` is the plain sum of the shifted
channels: the conversion to `uint16_t` changes nothing. -/
theorem gradientColour_of_near (d : ℝ) (h0 : 0 ≤ d) (h1 : d < 100) :
    gradientColour d = redChannel d * 2 ^ 11 + greenChannel d * 2 ^ 5 + blueChannel d := by
  obtain ⟨⟨hr, hr0, hr1⟩, ⟨hg, hg0, hg1⟩, ⟨hb, hb0, hb1⟩⟩ := channels_of_near d h0 h1
  unfold gradientColour toUint16
  apply Int.emod_eq_of_lt <;> omega

/-- What the pixel loop does with a depth below `MAX_DEPTH`: the variable
`color` is assigned and written, whatever it held before. -/
theorem colourStep_of_lt (color : Option ℤ) (d : ℝ) (t : ℤ) (h : d < MAX_DEPTH) :
    colourStep color d t =
      (some (if d < 0 then WHITE else if d < 100 then gradientColour d else BLACK),
        some (if d < 0 then WHITE else if d < 100 then gradientColour d else BLACK)) := by
  have h300 : d < 300 := by
    rw [MAX_DEPTH_eq] at h
    linarith
  unfold colourStep
  rw [if_pos h]
  by_cases hneg : d < 0
  · simp only [if_pos hneg]
  · by_cases hnear : d < 100
    · simp only [if_neg hneg, if_pos hnear]
    · simp only [if_neg hneg, if_neg hnear, if_pos h300]

/-- What the pixel loop does with a depth of at least `MAX_DEPTH`. -/
theorem colourStep_of_ge (color : Option ℤ) (d : ℝ) (t : ℤ) (h : MAX_DEPTH ≤ d) :
    colourStep color d t = (color, some ((0x0005 + 5 * t) % 65536)) := by
  unfold colourStep toUint16
  rw [if_neg (not_lt.mpr h)]

/-- C14 as stated fails: the depth 180 lies in `[100, 300)`, and at tick 0 the
colour written for it is the background value 5, not `BLACK`. -/
theorem far_depth_not_black :
    (100 : ℝ) ≤ 180 ∧ (180 : ℝ) < 300 ∧ (colourStep none 180 0).2 = some 5 ∧
      (colourStep none 180 0).2 ≠ some BLACK := by
  have h : (colourStep none 180 0).2 = some 5 := by
    rw [colourStep_of_ge none 180 0 (by rw [MAX_DEPTH_eq])]
    norm_num
  refine ⟨by norm_num, by norm_num, h, ?_⟩
  rw [h]
  simp [BLACK]

/-- C14 (amended): the colour mapping in `main` maps every depth `d` with
`100 ≤ d < MAX_DEPTH`, that is `100 ≤ d < 180`, to `BLACK = 0x0000`, for every
tick; a depth `d` with `MAX_DEPTH ≤ d` (so every `d` in `[180, 300)`) gets the
background colour `(0x0005 + 5 * t) mod 2^16`. -/
theorem black_between_near_and_max (color : Option ℤ) (d : ℝ) (t : ℤ) :
    (100 ≤ d → d < MAX_DEPTH → (colourStep color d t).2 = some BLACK) ∧
    (MAX_DEPTH ≤ d → (colourStep color d t).2 = some ((0x0005 + 5 * t) % 65536)) ∧
    BLACK = 0x0000 ∧ MAX_DEPTH = 180 := by
  refine ⟨fun h100 hmax => ?_, fun hge => ?_, rfl, rfl⟩
  · rw [colourStep_of_lt color d t hmax, if_neg (by linarith), if_neg (by linarith)]
  · rw [colourStep_of_ge color d t hge]

/-- Witness of C14 (amended): the depths 100 and 180 at tick 3. -/
theorem black_between_near_and_max_witness :
    (colourStep none 100 3).2 = some BLACK ∧ (colourStep none 180 3).2 = some 20 := by
  refine ⟨(black_between_near_and_max none 100 3).1 (le_refl _) (by norm_num [MAX_DEPTH_eq]), ?_⟩
  rw [(black_between_near_and_max none 180 3).2.1 (by norm_num [MAX_DEPTH_eq])]
  norm_num

/-- C15: for every depth `d` with `0 ≤ d < 100` the colour computed in `main`
is `R * 2^11 + G * 2^5 + B` with `R = 31 - floor (0.31 d)` in `[0, 31]`,
`G = 63 - floor (0.63 d)` in `[0, 63]` and `B = 31 - floor (0.2 d)` in
`[0, 31]`; the sum fits in 16 bits; each channel is non-increasing in `d`; and
`d = 0` gives `0xFFFF`. -/
theorem gradient_well_formed (d : ℝ) (h0 : 0 ≤ d) (h1 : d < 100) :
    (∀ (color : Option ℤ) (t : ℤ), (colourStep color d t).2 = some (gradientColour d)) ∧
    gradientColour d = redChannel d * 2 ^ 11 + greenChannel d * 2 ^ 5 + blueChannel d ∧
    redChannel d = 31 - ⌊0.31 * d⌋ ∧ greenChannel d = 63 - ⌊0.63 * d⌋ ∧
    blueChannel d = 31 - ⌊0.2 * d⌋ ∧
    (0 ≤ redChannel d ∧ redChannel d ≤ 31) ∧ (0 ≤ greenChannel d ∧ greenChannel d ≤ 63) ∧
    (0 ≤ blueChannel d ∧ blueChannel d ≤ 31) ∧
    (0 ≤ gradientColour d ∧ gradientColour d < 2 ^ 16) ∧
    (∀ d' : ℝ, 0 ≤ d' → d' ≤ d →
      redChannel d ≤ redChannel d' ∧ greenChannel d ≤ greenChannel d' ∧
        blueChannel d ≤ blueChannel d') ∧
    gradientColour 0 = 0xFFFF := by
  obtain ⟨⟨hr, hr0, hr1⟩, ⟨hg, hg0, hg1⟩, ⟨hb, hb0, hb1⟩⟩ := channels_of_near d h0 h1
  have hsum := gradientColour_of_near d h0 h1
  refine ⟨fun color t => ?_, hsum, ?_, ?_, ?_, ⟨by omega, by omega⟩, ⟨by omega, by omega⟩,
    ⟨by omega, by omega⟩, ⟨by omega, by omega⟩, fun d' hd0 hd => ?_, ?_⟩
  · rw [colourStep_of_lt color d t (by rw [MAX_DEPTH_eq]; linarith), if_neg (not_lt.mpr h0),
      if_pos h1]
  · rw [hr, mul_comm]
  · rw [hg, mul_comm]
  · rw [hb, mul_comm]
  · obtain ⟨⟨hr', _, _⟩, ⟨hg', _, _⟩, ⟨hb', _, _⟩⟩ := channels_of_near d' hd0 (by linarith)
    have m1 : ⌊d' * 0.31⌋ ≤ ⌊d * 0.31⌋ := Int.floor_mono (by nlinarith)
    have m2 : ⌊d' * 0.63⌋ ≤ ⌊d * 0.63⌋ := Int.floor_mono (by nlinarith)
    have m3 : ⌊d' * 0.2⌋ ≤ ⌊d * 0.2⌋ := Int.floor_mono (by nlinarith)
    rw [hr, hg, hb, hr', hg', hb']
    omega
  · obtain ⟨⟨hr', _, _⟩, ⟨hg', _, _⟩, ⟨hb', _, _⟩⟩ :=
      channels_of_near 0 (le_refl _) (by norm_num)
    rw [gradientColour_of_near 0 (le_refl _) (by norm_num), hr', hg', hb']
    norm_num

/-- Witness of C15: the depth 50, whose channels are 16, 32 and 21. -/
theorem gradient_well_formed_witness :
    gradientColour 50 = redChannel 50 * 2 ^ 11 + greenChannel 50 * 2 ^ 5 + blueChannel 50 ∧
      (colourStep none 50 0).2 = some (gradientColour 50) ∧ gradientColour 0 = 0xFFFF :=
  ⟨(gradient_well_formed 50 (by norm_num) (by norm_num)).2.1,
    (gradient_well_formed 50 (by norm_num) (by norm_num)).1 none 0,
    (gradient_well_formed 50 (by norm_num) (by norm_num)).2.2.2.2.2.2.2.2.2.2⟩

/-- C16: whenever the marched depth equals `MAX_DEPTH`, the colour written is
the background value `(0x0005 + 5 * t) mod 2^16`; for ticks
`0 ≤ t < t' ≤ 1000` the value at `t` is less than the value at `t'`, and no
value exceeds the value 5005 of tick 1000. -/
theorem background_colour_increasing :
    (∀ (color : Option ℤ) (t : ℤ),
      (colourStep color MAX_DEPTH t).2 = some ((0x0005 + 5 * t) % 2 ^ 16)) ∧
    (∀ t t' : ℤ, 0 ≤ t → t < t' → t' ≤ 1000 →
      (0x0005 + 5 * t) % 2 ^ 16 < (0x0005 + 5 * t') % 2 ^ 16) ∧
    (∀ t : ℤ, 0 ≤ t → t ≤ 1000 → (0x0005 + 5 * t) % 2 ^ 16 ≤ 5005) ∧
    (0x0005 + 5 * 1000 : ℤ) % 2 ^ 16 = 5005 := by
  have e : ∀ t : ℤ, 0 ≤ t → t ≤ 1000 → (0x0005 + 5 * t) % 2 ^ 16 = 5 + 5 * t := by
    intro t h0 h1
    apply Int.emod_eq_of_lt
    · omega
    · norm_num
      omega
  refine ⟨fun color t => ?_, fun t t' h0 hlt h1 => ?_, fun t h0 h1 => ?_, by norm_num⟩
  · rw [colourStep_of_ge color MAX_DEPTH t (le_refl _)]
    norm_num
  · rw [e t h0 (by omega), e t' (by omega) h1]
    omega
  · rw [e t h0 h1]
    omega

/-- Witness of C16: the ticks 0 and 1 and the tick 1000. -/
theorem background_colour_increasing_witness :
    (0x0005 + 5 * 0 : ℤ) % 2 ^ 16 < (0x0005 + 5 * 1) % 2 ^ 16 ∧
      (0x0005 + 5 * 1000 : ℤ) % 2 ^ 16 ≤ 5005 :=
  ⟨background_colour_increasing.2.1 0 1 (by norm_num) (by norm_num) (by norm_num),
    background_colour_increasing.2.2.1 1000 (by norm_num) (by norm_num)⟩

/-! ## The frame driver: sampled coordinates and pixel blocks -/

theorem mem_sampleXs (x : ℤ) : x ∈ sampleXs ↔ ∃ i : ℕ, i < 32 ∧ x = 10 * (i : ℤ) := by
  rw [sampleXs_eq]
  simp only [List.mem_map, List.mem_range]
  constructor
  · rintro ⟨i, hi, rfl⟩
    exact ⟨i, hi, rfl⟩
  · rintro ⟨i, hi, rfl⟩
    exact ⟨i, hi, rfl⟩

theorem mem_sampleYs (y : ℤ) : y ∈ sampleYs ↔ ∃ j : ℕ, j < 24 ∧ y = 10 * (j : ℤ) := by
  rw [sampleYs_eq]
  simp only [List.mem_map, List.mem_range]
  constructor
  · rintro ⟨j, hj, rfl⟩
    exact ⟨j, hj, rfl⟩
  · rintro ⟨j, hj, rfl⟩
    exact ⟨j, hj, rfl⟩

/-- The sampled coordinates are the pairs `(10 i, 10 j)` with `i < 32`, `j < 24`. -/
theorem mem_frameSamples (p : ℤ × ℤ) :
    p ∈ frameSamples ↔
      ∃ i j : ℕ, i < 32 ∧ j < 24 ∧ p.1 = 10 * (i : ℤ) ∧ p.2 = 10 * (j : ℤ) := by
  obtain ⟨x, y⟩ := p
  unfold frameSamples
  rw [List.pair_mem_product, mem_sampleXs, mem_sampleYs]
  constructor
  · rintro ⟨⟨i, hi, hx⟩, ⟨j, hj, hy⟩⟩
    exact ⟨i, j, hi, hj, hx, hy⟩
  · rintro ⟨i, j, hi, hj, hx, hy⟩
    exact ⟨⟨i, hi, hx⟩, ⟨j, hj, hy⟩⟩

theorem mem_rectPixels (r : Rectangle) (u v : ℤ) :
    (u, v) ∈ rectPixels r ↔ (r.left ≤ u ∧ u ≤ r.right) ∧ (r.top ≤ v ∧ v ≤ r.bottom) := by
  unfold rectPixels
  rw [Finset.mem_product, Finset.mem_Icc, Finset.mem_Icc]

theorem card_rectPixels_pix (x y : ℤ) : (rectPixels (pix x y)).card = 9 := by
  unfold rectPixels pix
  rw [Finset.card_product, Int.card_Icc, Int.card_Icc]
  simp only [show x + 2 + 1 - x = 3 by ring, show y + 2 + 1 - y = 3 by ring]
  rfl

/-- C17 as stated fails: with inclusive bounds the rectangle passed for the
sampled coordinate `(0, 0)` covers 9 pixels, not `2 * 2 = 4`. -/
theorem pix_not_two_by_two :
    ((0, 0) : ℤ × ℤ) ∈ frameSamples ∧ (rectPixels (pix 0 0)).card = 9 ∧
      (rectPixels (pix 0 0)).card ≠ 2 * 2 := by
  refine ⟨?_, card_rectPixels_pix 0 0, ?_⟩
  · rw [mem_frameSamples]
    exact ⟨0, 0, by norm_num, by norm_num, by norm_num, by norm_num⟩
  · rw [card_rectPixels_pix]
    norm_num

/-- C17 (amended): for every sampled coordinate `(x, y)`, the rectangle the
frame driver passes to the display, read as inclusive bounds
`(left, right, top, bottom)`, covers the block of exactly `3 * 3 = 9` pixels
anchored at `(x, y)`: the columns `x` to `x + 2` and the rows `y` to `y + 2`. -/
theorem pix_three_by_three (x y : ℤ) :
    (∀ u v : ℤ, (u, v) ∈ rectPixels (pix x y) ↔ (x ≤ u ∧ u ≤ x + 2) ∧ (y ≤ v ∧ v ≤ y + 2)) ∧
    (x, y) ∈ rectPixels (pix x y) ∧
    (rectPixels (pix x y)).card = 3 * 3 := by
  refine ⟨fun u v => mem_rectPixels (pix x y) u v, ?_, card_rectPixels_pix x y⟩
  rw [mem_rectPixels]
  simp only [pix]
  omega

/-- C18: within one frame the pixel blocks written for the sampled coordinates
`x` in `{0, 10, ..., 310}`, `y` in `{0, 10, ..., 230}` are pairwise disjoint,
and every block lies inside the display area `[0, 319] x [0, 239]` that the
initial clear covers. -/
theorem blocks_disjoint_inside_display :
    (∀ p ∈ frameSamples, ∀ q ∈ frameSamples, p ≠ q →
      Disjoint (rectPixels (pix p.1 p.2)) (rectPixels (pix q.1 q.2))) ∧
    (∀ p ∈ frameSamples, rectPixels (pix p.1 p.2) ⊆ rectPixels bg) ∧
    (∀ u v : ℤ, (u, v) ∈ rectPixels bg ↔ (0 ≤ u ∧ u ≤ 319) ∧ (0 ≤ v ∧ v ≤ 239)) ∧
    (∀ p : ℤ × ℤ, p ∈ frameSamples ↔
      ∃ i j : ℕ, i < 32 ∧ j < 24 ∧ p.1 = 10 * (i : ℤ) ∧ p.2 = 10 * (j : ℤ)) := by
  refine ⟨?_, ?_, fun u v => mem_rectPixels bg u v, mem_frameSamples⟩
  · intro p hp q hq hne
    obtain ⟨i, j, hi, hj, hx, hy⟩ := (mem_frameSamples p).1 hp
    obtain ⟨i', j', hi', hj', hx', hy'⟩ := (mem_frameSamples q).1 hq
    rw [Finset.disjoint_left]
    rintro ⟨u, v⟩ hu hv
    rw [mem_rectPixels] at hu hv
    simp only [pix] at hu hv
    apply hne
    apply Prod.ext
    · omega
    · omega
  · intro p hp
    obtain ⟨i, j, hi, hj, hx, hy⟩ := (mem_frameSamples p).1 hp
    rintro ⟨u, v⟩ hu
    rw [mem_rectPixels] at hu ⊢
    simp only [pix] at hu
    simp only [bg]
    omega

/-- Witness of C18: the blocks of the first two sampled coordinates of a frame
are disjoint, and the block of the last one lies inside the display area. -/
theorem blocks_disjoint_inside_display_witness :
    Disjoint (rectPixels (pix 0 0)) (rectPixels (pix 0 10)) ∧
      rectPixels (pix 310 230) ⊆ rectPixels bg := by
  have h1 : ((0, 0) : ℤ × ℤ) ∈ frameSamples :=
    (mem_frameSamples _).2 ⟨0, 0, by norm_num, by norm_num, by norm_num, by norm_num⟩
  have h2 : ((0, 10) : ℤ × ℤ) ∈ frameSamples :=
    (mem_frameSamples _).2 ⟨0, 1, by norm_num, by norm_num, by norm_num, by norm_num⟩
  have h3 : ((310, 230) : ℤ × ℤ) ∈ frameSamples :=
    (mem_frameSamples _).2 ⟨31, 23, by norm_num, by norm_num, by norm_num, by norm_num⟩
  have hne : ((0, 0) : ℤ × ℤ) ≠ (0, 10) := by
    intro h
    have h' := congrArg Prod.snd h
    norm_num at h'
  have hd := blocks_disjoint_inside_display.1 (0, 0) h1 (0, 10) h2 hne
  have hs := blocks_disjoint_inside_display.2.1 (310, 230) h3
  dsimp only at hd hs
  exact ⟨hd, hs⟩

/-! ## The range of the `int` expression of `raymarch` -/

set_option maxRecDepth 100000 in
/-- The number of sampled pixels whose `int` expression exceeds the 16-bit range. -/
theorem count_samples_exceeding_int16 :
    (frameSamples.filter (fun p => decide (INT16_MAX < radicand p.1 p.2))).length = 130 := by
  decide

/-- C19, the code at the first sampled pixel: for `(0, 0)` the `int` expression
under the square root has the mathematical value 49442, which exceeds the
largest 16-bit `int` 32767 (two's complement wrap-around would leave -16094);
the sum of its first two terms, 39442, already exceeds it. -/
theorem radicand_exceeds_int16 :
    ((0, 0) : ℤ × ℤ) ∈ frameSamples ∧ radicand 0 0 = 49442 ∧ INT16_MAX < radicand 0 0 ∧
      INT16_MAX < (0 - camera_x) * (0 - camera_x) + (0 - camera_y) * (0 - camera_y) ∧
      wrapInt16 (radicand 0 0) = -16094 ∧
      (frameSamples.filter (fun p => decide (INT16_MAX < radicand p.1 p.2))).length = 130 := by
  refine ⟨?_, by decide, by decide, by decide, by decide, count_samples_exceeding_int16⟩
  rw [mem_frameSamples]
  exact ⟨0, 0, by norm_num, by norm_num, by norm_num, by norm_num⟩

/-! ## The colour written after a hit -/

/-- Below 300 exactly one branch of the colour chain executes. -/
theorem branchRuns_unique (d : ℝ) (h : d < 300) : ∃! i : Fin 3, branchRuns d i := by
  by_cases h0 : d < 0
  · refine ⟨0, h0, fun j hj => ?_⟩
    fin_cases j
    · rfl
    · exact absurd h0 hj.1
    · exact absurd h0 hj.1
  · by_cases h1 : d < 100
    · refine ⟨1, ⟨h0, h1⟩, fun j hj => ?_⟩
      fin_cases j
      · exact absurd hj h0
      · rfl
      · exact absurd h1 hj.2.1
    · refine ⟨2, ⟨h0, h1, h⟩, fun j hj => ?_⟩
      fin_cases j
      · exact absurd hj h0
      · exact absurd hj.2 h1
      · rfl

/-- C20: for every pixel and every tick, when the marched distance is below
`MAX_DEPTH` it is below 300, exactly one of the three colour branches of `main`
executes, and `color` is assigned before `fill_rectangle` is called: the colour
written is a function of the marched distance alone, whatever `color` held
before (nothing, or the colour of an earlier pixel). -/
theorem colour_assigned_on_hit (x y t : ℤ) (color : Option ℤ)
    (h : raymarch x y t < MAX_DEPTH) :
    raymarch x y t < 300 ∧ (∃! i : Fin 3, branchRuns (raymarch x y t) i) ∧
    (colourStep color (raymarch x y t) t).2 =
      some (if raymarch x y t < 0 then WHITE
        else if raymarch x y t < 100 then gradientColour (raymarch x y t) else BLACK) ∧
    (colourStep color (raymarch x y t) t).2 = (colourStep none (raymarch x y t) t).2 := by
  have h300 : raymarch x y t < 300 := by
    rw [MAX_DEPTH_eq] at h
    linarith
  refine ⟨h300, branchRuns_unique _ h300, ?_, ?_⟩
  · rw [colourStep_of_lt color _ t h]
  · rw [colourStep_of_lt color _ t h, colourStep_of_lt none _ t h]

/-- The ray of the sampled pixel `(160, 120)` at tick 0 stops at depth 50, next
to the sphere. -/
theorem raymarch_near_centre : raymarch 160 120 0 = 50 := by
  have hsum := dir_sq_sum 160 120
  have hz : 0.995 ≤ dir_z 160 120 := by
    have hM : dir_magnitude 160 120 ≤ 100.5 := by
      rw [dir_magnitude_eq, Real.sqrt_le_iff]
      refine ⟨by norm_num, ?_⟩
      rw [show radicand 160 120 = 10002 by decide]
      norm_num
    have hpos : 0 < dir_magnitude 160 120 := by linarith [dir_magnitude_ge 160 120]
    unfold dir_z
    rw [le_div_iff₀ hpos]
    simp only [camera_z]
    push_cast
    linarith
  have c1 : ((camera_x : ℤ) : ℝ) = 159 := by norm_num [camera_x]
  have c2 : ((camera_y : ℤ) : ℝ) = 119 := by norm_num [camera_y]
  have c3 : ((camera_z : ℤ) : ℝ) = -100 := by norm_num [camera_z]
  have f0 : sdf 159 119 (-100) 0 = 50 := by
    rw [sdf_axis_tick_zero]
    norm_num [abs_of_neg]
  have f50 : sdf (159 + 50 * dir_x 160 120) (119 + 50 * dir_y 160 120)
      (-100 + 50 * dir_z 160 120) 0 < 2 := by
    rw [sdf_tick_zero]
    refine lt_of_le_of_lt (min_le_right _ _) (lt_of_le_of_lt (min_le_left _ _) ?_)
    rw [sphereSDF_eq]
    have h12 : Real.sqrt ((159 + 50 * dir_x 160 120 - 159) ^ 2
        + (119 + 50 * dir_y 160 120 - 119) ^ 2 + (-100 + 50 * dir_z 160 120 + 40) ^ 2) < 12 := by
      rw [Real.sqrt_lt' (by norm_num)]
      nlinarith
    linarith
  unfold raymarch
  rw [show MAX_MARCH = 48 + 1 + 1 from rfl, marchLoop_succ]
  simp only [c1, c2, c3, ep_cast, zero_mul, add_zero, f0]
  rw [if_neg (by norm_num), if_neg (by norm_num [MAX_DEPTH]), marchLoop_succ]
  simp only [c1, c2, c3, ep_cast, zero_add]
  rw [if_pos f50]

/-- Witness of C20: the sampled pixel `(160, 120)` at tick 0, whose ray stops at
depth 50; the colour written is the gradient colour of depth 50, also when
`color` has never been assigned. -/
theorem colour_assigned_on_hit_witness :
    ((160, 120) : ℤ × ℤ) ∈ frameSamples ∧ raymarch 160 120 0 = 50 ∧
      (colourStep none (raymarch 160 120 0) 0).2 = some (gradientColour 50) := by
  have hlt : raymarch 160 120 0 < MAX_DEPTH := by
    rw [raymarch_near_centre, MAX_DEPTH_eq]
    norm_num
  refine ⟨?_, raymarch_near_centre, ?_⟩
  · rw [mem_frameSamples]
    exact ⟨16, 12, by norm_num, by norm_num, by norm_num, by norm_num⟩
  · rw [(colour_assigned_on_hit 160 120 0 none hlt).2.2.1, raymarch_near_centre,
      if_neg (by norm_num), if_pos (by norm_num)]

end

end SDFRayMarch
